import Mathlib

/-!
Shallow embedding of the build-artifact discovery and resolution algorithm
of the STM32 build analyzer (file src/services/BuildFolderResolver.ts).

The filesystem is modelled as a pure record of functions (directory
listing, existence check, read-access probe).  The recursive directory
walk is modelled with explicit fuel; every theorem that needs the walk to
terminate quantifies over the fuel or holds for all fuel values.  All
observable effects of a resolution call (directory listings performed,
notifications emitted, selection prompts shown) are collected in an
explicit trace so that the specification's observational claims can be
stated directly.
-/

namespace BuildFolderResolver

/-- Model of JavaScript String.prototype.endsWith: a case-sensitive
suffix test, phrased on the character sequence of the string. -/
def strEndsWith (s post : String) : Bool :=
  post.data.isSuffixOf s.data

/-- Model of JavaScript String.prototype.toLowerCase: lower-case every
character of the string. -/
def strToLower (s : String) : String :=
  ⟨s.data.map Char.toLower⟩

/-- Model of Node path.join for a directory and one entry name. -/
def pathJoin (dir name : String) : String :=
  dir ++ "/" ++ name

/-- Model of Node path.basename(name, ext) on a bare file name: the
extension is stripped only when it is a proper suffix of the name. -/
def basenameExt (s ext : String) : String :=
  if strEndsWith s ext && s != ext then s.dropRight ext.length else s

/-- JavaScript truthiness of an optional string configuration value:
an absent value and the empty string are both falsy. -/
def truthy : Option String → Bool
  | none => false
  | some s => s != ""

/-- The file-type kind reported by a Node Dirent (readdirSync with
withFileTypes).  A symbolic link is reported as symlink: Dirent.isDirectory
is false for it, because readdirSync does not follow links. -/
inductive DirentKind where
  | file
  | directory
  | symlink
deriving DecidableEq, Repr

/-- One entry of a directory listing, as returned by Node readdirSync
with withFileTypes. -/
structure Dirent where
  name : String
  kind : DirentKind
deriving DecidableEq, Repr

/-- Result of Dirent.isDirectory(): true only for a real directory entry,
never for a symbolic link. -/
def Dirent.isDirectory (d : Dirent) : Bool :=
  d.kind = DirentKind.directory

/-- Pure model of the filesystem operations used by the resolver.
readdir returns none when readdirSync would throw (permission denied,
race-deleted directory, nonexistent path); existsSync models
fs.existsSync; accessOk models a successful
fs.promises.access(p, R_OK) probe (the PathValidator). -/
structure FS where
  readdir : String → Option (List Dirent)
  existsSync : String → Bool
  accessOk : String → Bool

/-- State threaded through the recursive walk of findBuildFolders:
the visited set of normalized directory keys, the folders found to
contain both artifact extensions (in encounter order), and the trace of
directories on which a listing was attempted (in order). -/
structure WalkSt where
  visited : List String
  found : List String
  trace : List String
deriving DecidableEq, Repr

/-- The normalized identity key of a directory path: lower-cased when
the platform is assumed case-insensitive. -/
def keyOf (ci : Bool) (dir : String) : String :=
  if ci then strToLower dir else dir

/-- Loop body of the walk over one directory listing, mirroring the
for-loop in walk: recurse (through walkFn) into directory entries,
otherwise record whether a name ends in .map, else in .elf.
Returns the updated state and the two flags. -/
def walkEntries (walkFn : String → WalkSt → WalkSt) (dir : String) :
    List Dirent → WalkSt → Bool → Bool → WalkSt × Bool × Bool
  | [], st, hasMap, hasElf => (st, hasMap, hasElf)
  | d :: ds, st, hasMap, hasElf =>
    if d.isDirectory then
      walkEntries walkFn dir ds (walkFn (pathJoin dir d.name) st) hasMap hasElf
    else if strEndsWith d.name ".map" then
      walkEntries walkFn dir ds st true hasElf
    else if strEndsWith d.name ".elf" then
      walkEntries walkFn dir ds st hasMap true
    else
      walkEntries walkFn dir ds st hasMap hasElf

/-- After the loop over a directory's entries, append the directory to
found when both flags were observed. -/
def walkStep (r : WalkSt × Bool × Bool) (dir : String) : WalkSt :=
  if r.2.1 && r.2.2 then ⟨r.1.visited, r.1.found ++ [dir], r.1.trace⟩
  else r.1

/-- The recursive walk of findBuildFolders, with explicit fuel.  A
directory whose normalized key was already visited is skipped; a listing
failure is caught and the directory contributes nothing (it is treated
as empty); a directory whose own listing directly contains both a .map
and an .elf non-directory entry is appended to found. -/
def walk (fs : FS) (ci : Bool) : Nat → String → WalkSt → WalkSt
  | 0, _, st => st
  | fuel + 1, dir, st =>
    if st.visited.contains (keyOf ci dir) then st
    else
      match fs.readdir dir with
      | none => ⟨keyOf ci dir :: st.visited, st.found, st.trace ++ [dir]⟩
      | some es =>
        walkStep
          (walkEntries (walk fs ci fuel) dir es
            ⟨keyOf ci dir :: st.visited, st.found, st.trace ++ [dir]⟩ false false)
          dir

/-- A listing directly contains a non-directory entry whose name ends
in .map (the condition under which the loop sets hasMap). -/
def hasMapEntry (es : List Dirent) : Bool :=
  es.any fun d => !d.isDirectory && strEndsWith d.name ".map"

/-- A listing directly contains a non-directory entry whose name ends
in .elf and was not already counted as .map (the condition under which
the loop sets hasElf). -/
def hasElfEntry (es : List Dirent) : Bool :=
  es.any fun d => !d.isDirectory && !strEndsWith d.name ".map" && strEndsWith d.name ".elf"

/-- The directory-local qualification test: the listing of x succeeds
and directly contains both a .map and an .elf non-directory entry. -/
def listingHasBoth (fs : FS) (x : String) : Bool :=
  match fs.readdir x with
  | none => false
  | some es => hasMapEntry es && hasElfEntry es

/-- The fixed, ordered list of conventionally named build-output
subdirectories tried first by findBuildFolders. -/
def commonNames : List String :=
  ["build", "Build", "Release", "Debug", "out", "output"]

/-- The prioritized pass of findBuildFolders: walk each conventionally
named subdirectory of the root that exists, in order, threading one
shared state. -/
def commonPass (fs : FS) (ci : Bool) (fuel : Nat) (root : String) : WalkSt :=
  (commonNames.map (pathJoin root)).foldl
    (fun st c => if fs.existsSync c then walk fs ci fuel c st else st)
    ⟨[], [], []⟩

/-- findBuildFolders: run the prioritized pass over the conventional
subdirectories; if it found nothing, fall back to a full walk of the
workspace root itself. -/
def findBuildFolders (fs : FS) (ci : Bool) (fuel : Nat) (root : String) : WalkSt :=
  let st1 := commonPass fs ci fuel root
  if st1.found.isEmpty then walk fs ci fuel root st1 else st1

/-- The configuration surface read by the resolver.  mapFilePath and
elfFilePath come from the stm32BuildAnalyzer section, toolchainPath and
debug from the stm32BuildAnalyzerEnhanced section; an unset entry is
none. -/
structure Config where
  mapFilePath : Option String
  elfFilePath : Option String
  toolchainPath : Option String
  debug : Bool
deriving DecidableEq, Repr

/-- A user-facing notification emitted through the host window. -/
inductive Notif where
  | info (msg : String)
  | warning (msg : String)
deriving DecidableEq, Repr

/-- The terminal errors thrown by resolve, one per throw site. -/
inductive ResolveError where
  | noWorkspace
  | noBuildFolderFound
  | noMatchingArtifacts
  | selectionCancelled
deriving DecidableEq, Repr

/-- A quick-pick item built for one matched binary/map pair: one
Candidate. -/
structure Item where
  label : String
  detail : String
  elf : String
  map : String
deriving DecidableEq, Repr

instance : Inhabited Item := ⟨⟨"", "", "", ""⟩⟩

/-- The result record of resolve: the ResolvedPaths of the spec. -/
structure BuildPaths where
  map : String
  elf : String
  toolchainPath : Option String
deriving DecidableEq, Repr

/-- The observable effects of one resolve call: every directory listing
performed (walk listings first, then the per-folder pairing listings),
every notification emitted, and every selection prompt shown together
with the candidate list it displayed. -/
structure Trace where
  listings : List String
  notifs : List Notif
  prompts : List (List Item)
deriving DecidableEq, Repr

/-- The whole environment of one resolve call: configuration,
filesystem, the platform case-insensitivity heuristic
(process.platform is win32 or darwin), the open workspace folders, and
the user's behaviour at the quick-pick prompt (none models dismissing
the prompt). -/
structure Env where
  cfg : Config
  fs : FS
  ci : Bool
  workspaceFolders : List String
  picker : List Item → Option Item

/-- Model of vscode.workspace.asRelativePath for a folder under the
first workspace root. -/
def asRelativePath (root folder : String) : String :=
  if (root ++ "/").data.isPrefixOf folder.data then
    ⟨folder.data.drop (root.length + 1)⟩
  else folder

/-- getToolchainPath: read the optional toolchain override; a falsy
value is silently omitted; an existing readable path is returned with
an informational notice; anything else produces a warning and is
omitted.  Never fails. -/
def getToolchainPath (cfg : Config) (fs : FS) : Option String × List Notif :=
  match cfg.toolchainPath with
  | none => (none, [])
  | some t =>
    if t == "" then (none, [])
    else if fs.accessOk t then
      (some t, [Notif.info ("STM32 Build Analyzer: Using toolchain from " ++ t)])
    else
      (none, [Notif.warning ("STM32 Build Analyzer: toolchainPath not found: " ++ t)])

/-- The per-folder pairing loop of resolve (the ArtifactMatcher): list
the folder, split names into .elf and .map files, and for each binary
keep exactly the map whose name is the binary's stem followed by .map.
The readdir here cannot fail in the pure model because resolve only
reaches it for folders the walk listed successfully. -/
def pairArtifacts (fs : FS) (root folder : String) : List Item :=
  let files := ((fs.readdir folder).getD []).map Dirent.name
  let elfs := files.filter (fun f => strEndsWith f ".elf")
  let maps := files.filter (fun f => strEndsWith f ".map")
  elfs.foldl (fun acc elf =>
    let basename := basenameExt elf ".elf"
    match maps.find? (fun m => m == basename ++ ".map") with
    | some m =>
      acc ++ [⟨"$(file-binary) " ++ basename, asRelativePath root folder,
              pathJoin folder elf, pathJoin folder m⟩]
    | none => acc) []

/-- The candidate-collection loop of resolve: pair artifacts in every
found folder, in encounter order. -/
def collectItems (fs : FS) (root : String) (folders : List String) : List Item :=
  folders.foldl (fun acc folder => acc ++ pairArtifacts fs root folder) []

/-- The fast-path condition of resolve: both explicit overrides are
truthy and both pass the exists-and-readable probe. -/
def fastPathOk (cfg : Config) (fs : FS) : Bool :=
  truthy cfg.mapFilePath && truthy cfg.elfFilePath &&
  fs.accessOk (cfg.mapFilePath.getD "") && fs.accessOk (cfg.elfFilePath.getD "")

/-- resolve: the top-level entry point, returning the outcome together
with the observable trace of the call. -/
def resolve (env : Env) (fuel : Nat) : Except ResolveError BuildPaths × Trace :=
  let cfg := env.cfg
  if fastPathOk cfg env.fs then
    let tc := getToolchainPath cfg env.fs
    (Except.ok ⟨cfg.mapFilePath.getD "", cfg.elfFilePath.getD "", tc.1⟩,
     ⟨[], tc.2, []⟩)
  else
    match env.workspaceFolders with
    | [] => (Except.error ResolveError.noWorkspace, ⟨[], [], []⟩)
    | root :: _ =>
      let wst := findBuildFolders env.fs env.ci fuel root
      let folders := wst.found
      if folders.isEmpty then
        (Except.error ResolveError.noBuildFolderFound, ⟨wst.trace, [], []⟩)
      else
        let items := collectItems env.fs root folders
        if items.isEmpty then
          (Except.error ResolveError.noMatchingArtifacts,
           ⟨wst.trace ++ folders, [], []⟩)
        else
          let selectedItem := items.headD default
          if items.length > 1 then
            match env.picker items with
            | none =>
              (Except.error ResolveError.selectionCancelled,
               ⟨wst.trace ++ folders, [], [items]⟩)
            | some pick =>
              let tc := getToolchainPath cfg env.fs
              (Except.ok ⟨pick.map, pick.elf, tc.1⟩,
               ⟨wst.trace ++ folders, tc.2, [items]⟩)
          else
            let tc := getToolchainPath cfg env.fs
            (Except.ok ⟨selectedItem.map, selectedItem.elf, tc.1⟩,
             ⟨wst.trace ++ folders, tc.2, []⟩)

/-- Directory reachability through real directory entries only: the
directories a walk rooted at root can ever descend into.  A symbolic
link never produces a step because Dirent.isDirectory is false for
it. -/
inductive DirReachable (fs : FS) (root : String) : String → Prop
  | refl : DirReachable fs root root
  | step {p : String} {es : List Dirent} {d : Dirent} :
      DirReachable fs root p → fs.readdir p = some es → d ∈ es →
      d.isDirectory = true → DirReachable fs root (pathJoin p d.name)

/-- Replace a symbolic-link entry by a plain file entry with the same
name; other entries are unchanged. -/
def desymlinkEntry (d : Dirent) : Dirent :=
  match d.kind with
  | DirentKind.symlink => ⟨d.name, DirentKind.file⟩
  | _ => d

/-- Replace every symbolic-link entry of every listing by a plain file
entry with the same name. -/
def desymlink (fs : FS) : FS :=
  { fs with readdir := fun dir => (fs.readdir dir).map (List.map desymlinkEntry) }

/-- The state-transformation invariant of one or more walk calls rooted
in roots: dt is the list of directories on which a listing was
attempted (in order), df the list of directories appended to found. -/
structure DeltaSpec (fs : FS) (ci : Bool) (roots : List String)
    (st st' : WalkSt) (dt df : List String) : Prop where
  trace_eq : st'.trace = st.trace ++ dt
  found_eq : st'.found = st.found ++ df
  visited_iff : ∀ k, k ∈ st'.visited ↔ (k ∈ st.visited ∨ ∃ x ∈ dt, keyOf ci x = k)
  fresh : ∀ x ∈ dt, keyOf ci x ∉ st.visited
  nodupT : (dt.map (keyOf ci)).Nodup
  nodupF : (df.map (keyOf ci)).Nodup
  found_iff : ∀ x, x ∈ df ↔ (x ∈ dt ∧ listingHasBoth fs x = true)
  reach : ∀ x ∈ dt, ∃ r ∈ roots, DirReachable fs r x

/-- Some delta relates the two states of a group of walk calls rooted
in roots. -/
def WalkDelta (fs : FS) (ci : Bool) (roots : List String) (st st' : WalkSt) : Prop :=
  ∃ dt df, DeltaSpec fs ci roots st st' dt df

/-- Override only the toolchain configuration entry of an
environment. -/
def envWithToolchain (env : Env) (t : Option String) : Env :=
  { env with cfg := { env.cfg with toolchainPath := t } }

/-- Example filesystem: a workspace whose build directory holds two
complete artifact pairs and an unmatched map file, while two custom
override paths outside the workspace are readable. -/
def fsW : FS where
  readdir := fun s =>
    if s = "/w" then some [⟨"build", DirentKind.directory⟩, ⟨"src", DirentKind.directory⟩]
    else if s = "/w/build" then
      some [⟨"app.elf", DirentKind.file⟩, ⟨"app.map", DirentKind.file⟩,
            ⟨"b.elf", DirentKind.file⟩, ⟨"b.map", DirentKind.file⟩,
            ⟨"other.map", DirentKind.file⟩]
    else if s = "/w/src" then some [⟨"main.c", DirentKind.file⟩]
    else none
  existsSync := fun s => s = "/w" || s = "/w/build" || s = "/w/src"
  accessOk := fun s => s = "/custom/app.map" || s = "/custom/app.elf"

/-- Example filesystem: no conventionally named build directory, one
unreadable subdirectory, and a sibling directory holding a valid
pair. -/
def fsDenied : FS where
  readdir := fun s =>
    if s = "/w" then some [⟨"bad", DirentKind.directory⟩, ⟨"b", DirentKind.directory⟩]
    else if s = "/w/b" then
      some [⟨"app.elf", DirentKind.file⟩, ⟨"app.map", DirentKind.file⟩]
    else none
  existsSync := fun s => s = "/w" || s = "/w/b"
  accessOk := fun _ => false

/-- Example filesystem: a directory holding a valid pair is reachable
only through a symbolic-link entry of the workspace root. -/
def fsLinked : FS where
  readdir := fun s =>
    if s = "/w" then some [⟨"link", DirentKind.symlink⟩, ⟨"src", DirentKind.directory⟩]
    else if s = "/w/link" then
      some [⟨"app.elf", DirentKind.file⟩, ⟨"app.map", DirentKind.file⟩]
    else if s = "/w/src" then some [⟨"main.c", DirentKind.file⟩]
    else none
  existsSync := fun s => s = "/w" || s = "/w/link" || s = "/w/src"
  accessOk := fun _ => false

/-- An empty configuration. -/
def cfgNone : Config := ⟨none, none, none, false⟩

/-- A configuration with both explicit override paths set. -/
def cfgFast : Config := ⟨some "/custom/app.map", some "/custom/app.elf", none, false⟩

/-- An environment over the two-pair workspace. -/
def envW (cfg : Config) (pick : List Item → Option Item) : Env :=
  ⟨cfg, fsW, false, ["/w"], pick⟩

/-- An environment over the workspace with the unreadable
subdirectory. -/
def envDenied : Env := ⟨cfgNone, fsDenied, false, ["/w"], fun _ => none⟩

/-! Basic lemmas about the string primitives. -/

theorem strToLower_length (s : String) : (strToLower s).length = s.length := by
  show (s.data.map Char.toLower).length = s.length
  rw [List.length_map]; rfl

theorem keyOf_length (ci : Bool) (d : String) : (keyOf ci d).length = d.length := by
  cases ci <;> simp [keyOf, strToLower_length]

theorem pathJoin_length (p n : String) :
    (pathJoin p n).length = p.length + 1 + n.length := by
  unfold pathJoin
  rw [String.length_append, String.length_append]; rfl

theorem strEndsWith_iff (s post : String) :
    strEndsWith s post = true ↔ post.data <:+ s.data := by
  simp [strEndsWith]

/-- A name that ends in .elf cannot also end in .map. -/
theorem strEndsWith_elf_not_map {s : String} (h : strEndsWith s ".elf" = true) :
    strEndsWith s ".map" = false := by
  rw [strEndsWith_iff] at h
  by_contra hc
  rw [Bool.not_eq_false, strEndsWith_iff] at hc
  obtain ⟨t1, h1⟩ := h
  obtain ⟨t2, h2⟩ := hc
  rw [← h2] at h1
  have hlen : t1.length = t2.length := by
    have := congrArg List.length h1
    simp at this
    omega
  have := List.append_inj_right h1 hlen
  exact absurd this (by decide)

/-! The directory-local co-location predicate computed by the walk. -/

/-- The else-if guard on .map is redundant: an entry counts for hasElf
exactly when it is a non-directory whose name ends in .elf. -/
theorem hasElfEntry_iff (es : List Dirent) :
    hasElfEntry es = true ↔
      ∃ d ∈ es, d.isDirectory = false ∧ strEndsWith d.name ".elf" = true := by
  unfold hasElfEntry
  rw [List.any_eq_true]
  constructor
  · rintro ⟨d, hd, hp⟩
    simp only [Bool.and_eq_true, Bool.not_eq_true'] at hp
    exact ⟨d, hd, hp.1.1, hp.2⟩
  · rintro ⟨d, hd, hdir, helf⟩
    refine ⟨d, hd, ?_⟩
    simp [hdir, helf, strEndsWith_elf_not_map helf]

theorem hasMapEntry_iff (es : List Dirent) :
    hasMapEntry es = true ↔
      ∃ d ∈ es, d.isDirectory = false ∧ strEndsWith d.name ".map" = true := by
  unfold hasMapEntry
  rw [List.any_eq_true]
  constructor
  · rintro ⟨d, hd, hp⟩
    simp only [Bool.and_eq_true, Bool.not_eq_true'] at hp
    exact ⟨d, hd, hp.1, hp.2⟩
  · rintro ⟨d, hd, hdir, hmap⟩
    exact ⟨d, hd, by simp [hdir, hmap]⟩

/-! Lemmas about directory reachability. -/

theorem DirReachable.concat {fs : FS} {a b c : String}
    (h1 : DirReachable fs a b) (h2 : DirReachable fs b c) : DirReachable fs a c := by
  induction h2 with
  | refl => exact h1
  | step _ hr hm hd ih => exact DirReachable.step ih hr hm hd

theorem DirReachable.length_le {fs : FS} {a b : String}
    (h : DirReachable fs a b) : a.length ≤ b.length := by
  induction h with
  | refl => exact Nat.le_refl _
  | step _ _ _ _ ih =>
    rw [pathJoin_length]
    omega

theorem DeltaSpec.visited_mono {fs ci roots st st' dt df}
    (h : DeltaSpec fs ci roots st st' dt df) :
    ∀ k ∈ st.visited, k ∈ st'.visited :=
  fun k hk => (h.visited_iff k).2 (Or.inl hk)

theorem DeltaSpec.key_mem_visited {fs ci roots st st' dt df}
    (h : DeltaSpec fs ci roots st st' dt df) :
    ∀ x ∈ dt, keyOf ci x ∈ st'.visited :=
  fun x hx => (h.visited_iff _).2 (Or.inr ⟨x, hx, rfl⟩)

theorem walkDelta_refl (fs : FS) (ci : Bool) (roots : List String) (st : WalkSt) :
    WalkDelta fs ci roots st st := by
  refine ⟨[], [], ?_, ?_, ?_, ?_, ?_, ?_, ?_, ?_⟩ <;> simp

theorem DeltaSpec.compose {fs ci r1 r2 st st1 st2 dt1 df1 dt2 df2}
    (h1 : DeltaSpec fs ci r1 st st1 dt1 df1)
    (h2 : DeltaSpec fs ci r2 st1 st2 dt2 df2) :
    DeltaSpec fs ci (r1 ++ r2) st st2 (dt1 ++ dt2) (df1 ++ df2) where
  trace_eq := by rw [h2.trace_eq, h1.trace_eq, List.append_assoc]
  found_eq := by rw [h2.found_eq, h1.found_eq, List.append_assoc]
  visited_iff := by
    intro k
    rw [h2.visited_iff, h1.visited_iff]
    constructor
    · rintro ((hk | ⟨x, hx, he⟩) | ⟨x, hx, he⟩)
      · exact Or.inl hk
      · exact Or.inr ⟨x, List.mem_append_left _ hx, he⟩
      · exact Or.inr ⟨x, List.mem_append_right _ hx, he⟩
    · rintro (hk | ⟨x, hx, he⟩)
      · exact Or.inl (Or.inl hk)
      · rcases List.mem_append.1 hx with h | h
        · exact Or.inl (Or.inr ⟨x, h, he⟩)
        · exact Or.inr ⟨x, h, he⟩
  fresh := by
    intro x hx
    rcases List.mem_append.1 hx with h | h
    · exact h1.fresh x h
    · intro hk
      exact h2.fresh x h (h1.visited_mono _ hk)
  nodupT := by
    rw [List.map_append, List.nodup_append]
    refine ⟨h1.nodupT, h2.nodupT, ?_⟩
    intro k hk1 hk2
    obtain ⟨x, hx, hxe⟩ := List.mem_map.1 hk1
    obtain ⟨y, hy, hye⟩ := List.mem_map.1 hk2
    exact h2.fresh y hy (hye ▸ hxe ▸ h1.key_mem_visited x hx)
  nodupF := by
    rw [List.map_append, List.nodup_append]
    refine ⟨h1.nodupF, h2.nodupF, ?_⟩
    intro k hk1 hk2
    obtain ⟨x, hx, hxe⟩ := List.mem_map.1 hk1
    obtain ⟨y, hy, hye⟩ := List.mem_map.1 hk2
    have hx' : x ∈ dt1 := ((h1.found_iff x).1 hx).1
    have hy' : y ∈ dt2 := ((h2.found_iff y).1 hy).1
    exact h2.fresh y hy' (hye ▸ hxe ▸ h1.key_mem_visited x hx')
  found_iff := by
    intro x
    constructor
    · intro hx
      rcases List.mem_append.1 hx with h | h
      · obtain ⟨hd, hb⟩ := (h1.found_iff x).1 h
        exact ⟨List.mem_append_left _ hd, hb⟩
      · obtain ⟨hd, hb⟩ := (h2.found_iff x).1 h
        exact ⟨List.mem_append_right _ hd, hb⟩
    · rintro ⟨hd, hb⟩
      rcases List.mem_append.1 hd with h | h
      · exact List.mem_append_left _ ((h1.found_iff x).2 ⟨h, hb⟩)
      · exact List.mem_append_right _ ((h2.found_iff x).2 ⟨h, hb⟩)
  reach := by
    intro x hx
    rcases List.mem_append.1 hx with h | h
    · obtain ⟨r, hr, hre⟩ := h1.reach x h
      exact ⟨r, List.mem_append_left _ hr, hre⟩
    · obtain ⟨r, hr, hre⟩ := h2.reach x h
      exact ⟨r, List.mem_append_right _ hr, hre⟩

theorem walkDelta_trans {fs ci r1 r2 st st1 st2}
    (h1 : WalkDelta fs ci r1 st st1) (h2 : WalkDelta fs ci r2 st1 st2) :
    WalkDelta fs ci (r1 ++ r2) st st2 := by
  obtain ⟨dt1, df1, h1⟩ := h1
  obtain ⟨dt2, df2, h2⟩ := h2
  exact ⟨dt1 ++ dt2, df1 ++ df2, h1.compose h2⟩

theorem walkDelta_reroot {fs ci roots roots' st st'}
    (h : WalkDelta fs ci roots st st')
    (hsub : ∀ r ∈ roots, ∃ r' ∈ roots', DirReachable fs r' r) :
    WalkDelta fs ci roots' st st' := by
  obtain ⟨dt, df, h⟩ := h
  refine ⟨dt, df, h.trace_eq, h.found_eq, h.visited_iff, h.fresh,
    h.nodupT, h.nodupF, h.found_iff, ?_⟩
  intro x hx
  obtain ⟨r, hr, hre⟩ := h.reach x hx
  obtain ⟨r', hr', hre'⟩ := hsub r hr
  exact ⟨r', hr', hre'.concat hre⟩

theorem walkDelta_subset {fs ci roots roots' st st'}
    (h : WalkDelta fs ci roots st st') (hsub : roots ⊆ roots') :
    WalkDelta fs ci roots' st st' :=
  walkDelta_reroot h (fun r hr => ⟨r, hsub hr, DirReachable.refl⟩)

/-- The two flags computed by the loop over a listing depend only on
the listing: they are the initial flags or-ed with the direct
co-location tests. -/
theorem walkEntries_flags (walkFn : String → WalkSt → WalkSt) (dir : String) :
    ∀ (es : List Dirent) (st : WalkSt) (m e : Bool),
    (walkEntries walkFn dir es st m e).2 = (m || hasMapEntry es, e || hasElfEntry es)
  | [], st, m, e => by simp [walkEntries, hasMapEntry, hasElfEntry]
  | d :: ds, st, m, e => by
    simp only [walkEntries, hasMapEntry, hasElfEntry, List.any_cons]
    cases hd : d.isDirectory <;> cases hm : strEndsWith d.name ".map" <;>
      cases he : strEndsWith d.name ".elf" <;>
      simp [hd, hm, he, walkEntries_flags walkFn dir ds, hasMapEntry, hasElfEntry,
        Bool.or_assoc, Bool.or_comm, Bool.or_left_comm]

/-- The loop over one listing is a group of walk calls on the
directory entries; every directory it ever lists is reachable from the
enclosing directory. -/
theorem walkEntries_delta {fs : FS} {ci : Bool} {walkFn : String → WalkSt → WalkSt}
    (hwalk : ∀ d st, WalkDelta fs ci [d] st (walkFn d st)) (dir : String) :
    ∀ (es : List Dirent) (st : WalkSt) (m e : Bool),
    (∀ d ∈ es, d.isDirectory = true → DirReachable fs dir (pathJoin dir d.name)) →
    WalkDelta fs ci [dir] st (walkEntries walkFn dir es st m e).1
  | [], st, m, e, _ => by
    simp only [walkEntries]
    exact walkDelta_refl fs ci [dir] st
  | d :: ds, st, m, e, hroot => by
    have hds : ∀ d' ∈ ds, d'.isDirectory = true → DirReachable fs dir (pathJoin dir d'.name) :=
      fun d' hd' => hroot d' (List.mem_cons_of_mem _ hd')
    simp only [walkEntries]
    cases hd : d.isDirectory with
    | false =>
      cases hm : strEndsWith d.name ".map" <;> cases he : strEndsWith d.name ".elf" <;>
        simp only [hd, hm, he, Bool.false_eq_true, if_false, if_true] <;>
        exact walkEntries_delta hwalk dir ds st _ _ hds
    | true =>
      simp only [hd, if_true]
      have h1 : WalkDelta fs ci [dir] st (walkFn (pathJoin dir d.name) st) :=
        walkDelta_reroot (hwalk (pathJoin dir d.name) st)
          (fun r hr => by
            rw [List.mem_singleton.1 hr]
            exact ⟨dir, List.mem_singleton_self dir, hroot d (List.mem_cons_self d ds) hd⟩)
      have h2 := walkEntries_delta hwalk dir ds (walkFn (pathJoin dir d.name) st) m e hds
      exact walkDelta_subset (walkDelta_trans h1 h2) (fun r hr => by simpa using hr)

/-- The master invariant of one walk call: it appends to the trace a
duplicate-free group of newly visited directories, all reachable from
its root, and appends to found exactly those of them whose own listing
directly contains both extensions. -/
theorem walk_delta (fs : FS) (ci : Bool) :
    ∀ (fuel : Nat) (dir : String) (st : WalkSt),
    WalkDelta fs ci [dir] st (walk fs ci fuel dir st)
  | 0, dir, st => walkDelta_refl fs ci [dir] st
  | fuel + 1, dir, st => by
    simp only [walk]
    cases hv : st.visited.contains (keyOf ci dir) with
    | true =>
      simp only [if_true]
      exact walkDelta_refl fs ci [dir] st
    | false =>
      have hvm : keyOf ci dir ∉ st.visited := by simpa using hv
      simp only [Bool.false_eq_true, if_false]
      cases hr : fs.readdir dir with
      | none =>
        refine ⟨[dir], [], ?_, ?_, ?_, ?_, ?_, ?_, ?_, ?_⟩
        · rfl
        · simp
        · intro k
          constructor
          · intro hk
            rcases List.mem_cons.1 hk with hk | hk
            · exact Or.inr ⟨dir, List.mem_singleton_self dir, hk.symm⟩
            · exact Or.inl hk
          · rintro (hk | ⟨x, hx, he⟩)
            · exact List.mem_cons_of_mem _ hk
            · rw [List.mem_singleton.1 hx] at he
              rw [← he]
              exact List.mem_cons_self _ _
        · intro x hx
          rw [List.mem_singleton.1 hx]
          exact hvm
        · simp
        · simp
        · intro x
          simp only [List.not_mem_nil, false_iff, List.mem_singleton]
          rintro ⟨hx, hb⟩
          rw [hx] at hb
          simp [listingHasBoth, hr] at hb
        · intro x hx
          refine ⟨dir, List.mem_singleton_self dir, ?_⟩
          rw [List.mem_singleton.1 hx]
          exact DirReachable.refl
      | some es =>
        have hwalk := walk_delta fs ci fuel
        have hroot : ∀ d ∈ es, d.isDirectory = true →
            DirReachable fs dir (pathJoin dir d.name) :=
          fun d hd hdir => DirReachable.step DirReachable.refl hr hd hdir
        obtain ⟨dtE, dfE, hE⟩ :=
          walkEntries_delta hwalk dir es
            ⟨keyOf ci dir :: st.visited, st.found, st.trace ++ [dir]⟩ false false hroot
        have hflags := walkEntries_flags (walk fs ci fuel) dir es
          ⟨keyOf ci dir :: st.visited, st.found, st.trace ++ [dir]⟩ false false
        have hflag1 : (walkEntries (walk fs ci fuel) dir es
            ⟨keyOf ci dir :: st.visited, st.found, st.trace ++ [dir]⟩ false false).2.1 =
            hasMapEntry es := by
          rw [hflags]
          simp
        have hflag2 : (walkEntries (walk fs ci fuel) dir es
            ⟨keyOf ci dir :: st.visited, st.found, st.trace ++ [dir]⟩ false false).2.2 =
            hasElfEntry es := by
          rw [hflags]
          simp
        have hboth : listingHasBoth fs dir = (hasMapEntry es && hasElfEntry es) := by
          simp only [listingHasBoth, hr]
        have hfreshE : ∀ x ∈ dtE, keyOf ci x ≠ keyOf ci dir ∧ keyOf ci x ∉ st.visited := by
          intro x hx
          have := hE.fresh x hx
          simp only [List.mem_cons, not_or] at this
          exact this
        have hkeyE : keyOf ci dir ∉ dtE.map (keyOf ci) := by
          intro hk
          obtain ⟨x, hx, hxe⟩ := List.mem_map.1 hk
          exact (hfreshE x hx).1 hxe
        have hvisited : ∀ k,
            k ∈ (walkEntries (walk fs ci fuel) dir es
              ⟨keyOf ci dir :: st.visited, st.found, st.trace ++ [dir]⟩ false false).1.visited ↔
            (k ∈ st.visited ∨ ∃ x ∈ dir :: dtE, keyOf ci x = k) := by
          intro k
          rw [hE.visited_iff]
          simp only [List.mem_cons]
          constructor
          · rintro ((rfl | hk) | ⟨x, hx, he⟩)
            · exact Or.inr ⟨dir, Or.inl rfl, rfl⟩
            · exact Or.inl hk
            · exact Or.inr ⟨x, Or.inr hx, he⟩
          · rintro (hk | ⟨x, hx, he⟩)
            · exact Or.inl (Or.inr hk)
            · rcases hx with hx1 | hx2
              · rw [hx1] at he
                exact Or.inl (Or.inl he.symm)
              · exact Or.inr ⟨x, hx2, he⟩
        have htrace : (walkEntries (walk fs ci fuel) dir es
            ⟨keyOf ci dir :: st.visited, st.found, st.trace ++ [dir]⟩ false false).1.trace =
            st.trace ++ dir :: dtE := by
          rw [hE.trace_eq]
          simp
        have hfresh : ∀ x ∈ dir :: dtE, keyOf ci x ∉ st.visited := by
          intro x hx
          rcases List.mem_cons.1 hx with hx1 | hx2
          · rw [hx1]
            exact hvm
          · exact (hfreshE x hx2).2
        have hnodupT : ((dir :: dtE).map (keyOf ci)).Nodup := by
          simp only [List.map_cons, List.nodup_cons]
          exact ⟨hkeyE, hE.nodupT⟩
        have hreach : ∀ x ∈ dir :: dtE, ∃ r ∈ [dir], DirReachable fs r x := by
          intro x hx
          rcases List.mem_cons.1 hx with hx1 | hx2
          · refine ⟨dir, List.mem_singleton_self dir, ?_⟩
            rw [hx1]
            exact DirReachable.refl
          · exact hE.reach x hx2
        have hdirdfE : dir ∉ dfE := by
          intro hin
          have := (hE.found_iff dir).1 hin
          exact (hfreshE dir this.1).1 rfl
        cases hb : hasMapEntry es && hasElfEntry es with
        | true =>
          simp only [walkStep, hflag1, hflag2, hb, if_true]
          refine ⟨dir :: dtE, dfE ++ [dir], htrace, ?_, hvisited, hfresh, hnodupT, ?_, ?_, hreach⟩
          · rw [hE.found_eq]
            simp
          · rw [List.map_append, List.nodup_append]
            refine ⟨hE.nodupF, by simp, ?_⟩
            intro k hk1 hk2
            simp only [List.map_singleton, List.mem_singleton] at hk2
            obtain ⟨x, hx, hxe⟩ := List.mem_map.1 hk1
            have hx' : x ∈ dtE := ((hE.found_iff x).1 hx).1
            exact (hfreshE x hx').1 (hk2 ▸ hxe)
          · intro x
            simp only [List.mem_append, List.mem_cons, List.not_mem_nil, or_false]
            constructor
            · rintro (hx | hx1)
              · obtain ⟨hd, hbx⟩ := (hE.found_iff x).1 hx
                exact ⟨Or.inr hd, hbx⟩
              · refine ⟨Or.inl hx1, ?_⟩
                rw [hx1, hboth, hb]
            · rintro ⟨hx1 | hx, hbx⟩
              · exact Or.inr hx1
              · exact Or.inl ((hE.found_iff x).2 ⟨hx, hbx⟩)
        | false =>
          simp only [walkStep, hflag1, hflag2, hb, Bool.false_eq_true, if_false]
          refine ⟨dir :: dtE, dfE, htrace, hE.found_eq, hvisited, hfresh, hnodupT,
            hE.nodupF, ?_, hreach⟩
          intro x
          rw [hE.found_iff x]
          simp only [List.mem_cons]
          constructor
          · rintro ⟨hd, hbx⟩
            exact ⟨Or.inr hd, hbx⟩
          · rintro ⟨hx1 | hx, hbx⟩
            · rw [hx1, hboth, hb] at hbx
              exact absurd hbx (by simp)
            · exact ⟨hx, hbx⟩

/-- The prioritized pass is a group of walk calls rooted in the
existing conventional directories. -/
theorem foldWalk_delta (fs : FS) (ci : Bool) (fuel : Nat) :
    ∀ (cs : List String) (st : WalkSt),
    WalkDelta fs ci cs st
      (cs.foldl (fun st c => if fs.existsSync c then walk fs ci fuel c st else st) st)
  | [], st => walkDelta_refl fs ci [] st
  | c :: cs, st => by
    simp only [List.foldl_cons]
    cases he : fs.existsSync c with
    | true =>
      simp only [if_true]
      exact walkDelta_trans (walk_delta fs ci fuel c st)
        (foldWalk_delta fs ci fuel cs (walk fs ci fuel c st))
    | false =>
      simp only [Bool.false_eq_true, if_false]
      exact walkDelta_subset (foldWalk_delta fs ci fuel cs st)
        (fun x hx => List.mem_cons_of_mem c hx)

theorem commonPass_delta (fs : FS) (ci : Bool) (fuel : Nat) (root : String) :
    WalkDelta fs ci (commonNames.map (pathJoin root)) ⟨[], [], []⟩
      (commonPass fs ci fuel root) :=
  foldWalk_delta fs ci fuel (commonNames.map (pathJoin root)) ⟨[], [], []⟩

theorem findBuildFolders_delta (fs : FS) (ci : Bool) (fuel : Nat) (root : String) :
    WalkDelta fs ci (commonNames.map (pathJoin root) ++ [root]) ⟨[], [], []⟩
      (findBuildFolders fs ci fuel root) := by
  unfold findBuildFolders
  cases hemp : (commonPass fs ci fuel root).found.isEmpty with
  | true =>
    simp only [hemp, if_true]
    exact walkDelta_trans (commonPass_delta fs ci fuel root)
      (walk_delta fs ci fuel root (commonPass fs ci fuel root))
  | false =>
    simp only [hemp, Bool.false_eq_true, if_false]
    exact walkDelta_subset (commonPass_delta fs ci fuel root)
      (fun x hx => List.mem_append_left _ hx)

theorem commonNames_pos : ∀ name ∈ commonNames, 0 < name.length := by decide

/-- Every directory the prioritized pass ever lists lies strictly below
the workspace root, hence has a strictly longer path. -/
theorem commonPass_trace_long (fs : FS) (ci : Bool) (fuel : Nat) (root : String) :
    ∀ x ∈ (commonPass fs ci fuel root).trace, root.length < x.length := by
  obtain ⟨dt, df, h⟩ := commonPass_delta fs ci fuel root
  intro x hx
  rw [h.trace_eq] at hx
  simp only [List.nil_append] at hx
  obtain ⟨r, hr, hre⟩ := h.reach x hx
  obtain ⟨name, hname, hrn⟩ := List.mem_map.1 hr
  have h1 := hre.length_le
  have h2 : 0 < name.length := commonNames_pos name hname
  rw [← hrn, pathJoin_length] at h1
  omega

/-- The workspace root itself is never visited by the prioritized
pass. -/
theorem commonPass_root_not_visited (fs : FS) (ci : Bool) (fuel : Nat) (root : String) :
    keyOf ci root ∉ (commonPass fs ci fuel root).visited := by
  obtain ⟨dt, df, h⟩ := commonPass_delta fs ci fuel root
  intro hk
  rcases (h.visited_iff _).1 hk with hk | ⟨x, hx, he⟩
  · simp at hk
  · have hlen : x.length = root.length := by
      have := congrArg String.length he
      rw [keyOf_length, keyOf_length] at this
      exact this
    have hx' : x ∈ (commonPass fs ci fuel root).trace := by
      rw [h.trace_eq]
      simpa using hx
    have := commonPass_trace_long fs ci fuel root x hx'
    omega

/-- A walk rooted at an unvisited directory with positive fuel lists
that directory. -/
theorem walk_lists_root (fs : FS) (ci : Bool) (fuel : Nat) (dir : String) (st : WalkSt)
    (h : keyOf ci dir ∉ st.visited) :
    dir ∈ (walk fs ci (fuel + 1) dir st).trace := by
  simp only [walk]
  have hc : st.visited.contains (keyOf ci dir) = false := by simpa using h
  rw [hc]
  simp only [Bool.false_eq_true, if_false]
  cases hr : fs.readdir dir with
  | none => simp
  | some es =>
    have hroot : ∀ d ∈ es, d.isDirectory = true →
        DirReachable fs dir (pathJoin dir d.name) :=
      fun d hd hdir => DirReachable.step DirReachable.refl hr hd hdir
    obtain ⟨dtE, dfE, hE⟩ :=
      walkEntries_delta (walk_delta fs ci fuel) dir es
        ⟨keyOf ci dir :: st.visited, st.found, st.trace ++ [dir]⟩ false false hroot
    have htr : dir ∈ (walkEntries (walk fs ci fuel) dir es
        ⟨keyOf ci dir :: st.visited, st.found, st.trace ++ [dir]⟩ false false).1.trace := by
      rw [hE.trace_eq]
      simp
    unfold walkStep
    cases hb : ((walkEntries (walk fs ci fuel) dir es
        ⟨keyOf ci dir :: st.visited, st.found, st.trace ++ [dir]⟩ false false).2.1 &&
        (walkEntries (walk fs ci fuel) dir es
        ⟨keyOf ci dir :: st.visited, st.found, st.trace ++ [dir]⟩ false false).2.2) <;>
      simp [hb, htr]

theorem listingHasBoth_iff (fs : FS) (x : String) :
    listingHasBoth fs x = true ↔
      ∃ es, fs.readdir x = some es ∧
        (∃ d ∈ es, d.isDirectory = false ∧ strEndsWith d.name ".elf" = true) ∧
        (∃ d ∈ es, d.isDirectory = false ∧ strEndsWith d.name ".map" = true) := by
  unfold listingHasBoth
  cases hr : fs.readdir x with
  | none => simp
  | some es =>
    simp only [Bool.and_eq_true, hasMapEntry_iff, hasElfEntry_iff, Option.some.injEq]
    constructor
    · rintro ⟨hm, he⟩
      exact ⟨es, rfl, he, hm⟩
    · rintro ⟨es', hes, he, hm⟩
      rw [← hes] at he hm
      exact ⟨hm, he⟩

theorem findBuildFolders_trace_found (fs : FS) (ci : Bool) (fuel : Nat) (root : String) :
    ∃ dt df, DeltaSpec fs ci (commonNames.map (pathJoin root) ++ [root])
        ⟨[], [], []⟩ (findBuildFolders fs ci fuel root) dt df ∧
      (findBuildFolders fs ci fuel root).trace = dt ∧
      (findBuildFolders fs ci fuel root).found = df := by
  obtain ⟨dt, df, h⟩ := findBuildFolders_delta fs ci fuel root
  exact ⟨dt, df, h, by simpa using h.trace_eq, by simpa using h.found_eq⟩

/-- Claim C2: a directory D is added to the found set if and only if the walk
listed D and the listing of D itself directly contains at least one
non-directory entry whose name ends in .elf and at least one whose name
ends in .map (case-sensitive); matching files that exist only in
subdirectories of D never qualify D. -/
theorem folder_found_iff_direct_colocation (fs : FS) (ci : Bool) (fuel : Nat)
    (root D : String) :
    D ∈ (findBuildFolders fs ci fuel root).found ↔
      (D ∈ (findBuildFolders fs ci fuel root).trace ∧
       ∃ es, fs.readdir D = some es ∧
         (∃ d ∈ es, d.isDirectory = false ∧ strEndsWith d.name ".elf" = true) ∧
         (∃ d ∈ es, d.isDirectory = false ∧ strEndsWith d.name ".map" = true)) := by
  obtain ⟨dt, df, h, htr, hfd⟩ := findBuildFolders_trace_found fs ci fuel root
  rw [htr, hfd, ← listingHasBoth_iff]
  exact h.found_iff D

/-- Claim C5: within one findBuildFolders invocation no directory identity
(the path, lower-cased when the filesystem is assumed case-insensitive)
is listed twice, and the found set holds each directory identity at
most once. -/
theorem no_duplicate_traversal (fs : FS) (ci : Bool) (fuel : Nat) (root : String) :
    ((findBuildFolders fs ci fuel root).trace.map (keyOf ci)).Nodup ∧
    ((findBuildFolders fs ci fuel root).found.map (keyOf ci)).Nodup ∧
    (findBuildFolders fs ci fuel root).found.Nodup := by
  obtain ⟨dt, df, h, htr, hfd⟩ := findBuildFolders_trace_found fs ci fuel root
  rw [htr, hfd]
  exact ⟨h.nodupT, h.nodupF, h.nodupF.of_map⟩

theorem desymlinkEntry_isDirectory (d : Dirent) :
    (desymlinkEntry d).isDirectory = d.isDirectory := by
  rcases d with ⟨n, k⟩
  cases k <;> rfl

theorem desymlinkEntry_name (d : Dirent) : (desymlinkEntry d).name = d.name := by
  rcases d with ⟨n, k⟩
  cases k <;> rfl

theorem walkEntries_desymlink (walkFn : String → WalkSt → WalkSt) (dir : String) :
    ∀ (es : List Dirent) (st : WalkSt) (m e : Bool),
    walkEntries walkFn dir (es.map desymlinkEntry) st m e = walkEntries walkFn dir es st m e
  | [], _, _, _ => rfl
  | d :: ds, st, m, e => by
    simp only [List.map_cons, walkEntries, desymlinkEntry_isDirectory, desymlinkEntry_name]
    cases hd : d.isDirectory <;> cases hm : strEndsWith d.name ".map" <;>
      cases he : strEndsWith d.name ".elf" <;>
      simp [hd, hm, he, walkEntries_desymlink walkFn dir ds]

theorem walk_desymlink (fs : FS) (ci : Bool) :
    ∀ (fuel : Nat) (dir : String) (st : WalkSt),
    walk (desymlink fs) ci fuel dir st = walk fs ci fuel dir st
  | 0, _, _ => rfl
  | fuel + 1, dir, st => by
    have hW : walk (desymlink fs) ci fuel = walk fs ci fuel :=
      funext fun d => funext fun s => walk_desymlink fs ci fuel d s
    simp only [walk]
    cases hc : st.visited.contains (keyOf ci dir) with
    | true => simp [hc]
    | false =>
      simp only [hc, Bool.false_eq_true, if_false]
      cases hr : fs.readdir dir with
      | none =>
        have hr' : (desymlink fs).readdir dir = none := by simp [desymlink, hr]
        simp [hr', hr]
      | some es =>
        have hr' : (desymlink fs).readdir dir = some (es.map desymlinkEntry) := by
          simp [desymlink, hr]
        simp only [hr', hr]
        rw [hW, walkEntries_desymlink]

theorem findBuildFolders_desymlink (fs : FS) (ci : Bool) (fuel : Nat) (root : String) :
    findBuildFolders (desymlink fs) ci fuel root = findBuildFolders fs ci fuel root := by
  have hW : walk (desymlink fs) ci fuel = walk fs ci fuel :=
    funext fun d => funext fun s => walk_desymlink fs ci fuel d s
  unfold findBuildFolders commonPass
  rw [hW]
  rfl

/-- Claim C10: the walker recurses only through real directory entries and
never follows symbolic links: every directory it ever lists is
reachable from one of the search roots through directory entries alone;
the whole search is unchanged when every symbolic-link entry is
replaced by a plain file of the same name (so a symlink named .map or
.elf counts as a directly contained file of that kind); and concretely
a pair-holding directory reachable only through a symlink is neither
traversed nor reported. -/
theorem walker_never_follows_symlinks (fs : FS) (ci : Bool) (fuel : Nat) (root : String) :
    (∀ x ∈ (findBuildFolders fs ci fuel root).trace,
        ∃ r ∈ commonNames.map (pathJoin root) ++ [root], DirReachable fs r x) ∧
    findBuildFolders (desymlink fs) ci fuel root = findBuildFolders fs ci fuel root ∧
    ((findBuildFolders fsLinked false 2 "/w").trace = ["/w", "/w/src"] ∧
     (findBuildFolders fsLinked false 2 "/w").found = []) := by
  refine ⟨?_, findBuildFolders_desymlink fs ci fuel root, by decide, by decide⟩
  obtain ⟨dt, df, h, htr, _⟩ := findBuildFolders_trace_found fs ci fuel root
  intro x hx
  rw [htr] at hx
  exact h.reach x hx

/-- Claim C4: findBuildFolders first walks, in fixed priority order, each
conventionally named subdirectory of the workspace root that exists
(the prioritized pass), and performs the walk of the workspace root
itself exactly when that pass yields zero matching folders. -/
theorem prioritized_pass_then_fallback (fs : FS) (ci : Bool) (fuel : Nat) (root : String) :
    (findBuildFolders fs ci fuel root =
      if (commonPass fs ci fuel root).found.isEmpty
      then walk fs ci fuel root (commonPass fs ci fuel root)
      else commonPass fs ci fuel root) ∧
    (1 ≤ fuel →
      (root ∈ (findBuildFolders fs ci fuel root).trace ↔
        (commonPass fs ci fuel root).found = [])) := by
  refine ⟨rfl, ?_⟩
  intro hfuel
  cases hemp : (commonPass fs ci fuel root).found.isEmpty with
  | true =>
    have hempty : (commonPass fs ci fuel root).found = [] := by
      simpa [List.isEmpty_iff] using hemp
    have heq : findBuildFolders fs ci fuel root =
        walk fs ci fuel root (commonPass fs ci fuel root) := by
      unfold findBuildFolders
      simp [hemp]
    constructor
    · intro _
      exact hempty
    · intro _
      rw [heq]
      obtain ⟨n, rfl⟩ : ∃ n, fuel = n + 1 := ⟨fuel - 1, by omega⟩
      exact walk_lists_root fs ci n root _ (commonPass_root_not_visited fs ci (n + 1) root)
  | false =>
    have hne : (commonPass fs ci fuel root).found ≠ [] := by
      simpa [List.isEmpty_iff] using hemp
    have heq : findBuildFolders fs ci fuel root = commonPass fs ci fuel root := by
      unfold findBuildFolders
      simp [hemp]
    rw [heq]
    constructor
    · intro hmem
      have := commonPass_trace_long fs ci fuel root root hmem
      omega
    · intro h
      exact absurd h hne

/-- Claim C1: when both explicit overrides are configured (non-empty) and
both pass the exists-and-readable probe, resolve returns exactly the
configured strings, performs zero directory listings and shows no
prompt, whatever the workspace tree contains. -/
theorem fast_path_short_circuit (env : Env) (fuel : Nat) (m e : String)
    (hm : env.cfg.mapFilePath = some m) (hm' : m ≠ "")
    (he : env.cfg.elfFilePath = some e) (he' : e ≠ "")
    (ham : env.fs.accessOk m = true) (hae : env.fs.accessOk e = true) :
    resolve env fuel =
      (Except.ok ⟨m, e, (getToolchainPath env.cfg env.fs).1⟩,
       ⟨[], (getToolchainPath env.cfg env.fs).2, []⟩) := by
  have hfp : fastPathOk env.cfg env.fs = true := by
    simp [fastPathOk, truthy, hm, he, hm', he', ham, hae]
  unfold resolve
  simp only [hfp, if_true, hm, he, Option.getD_some]

theorem fast_path_short_circuit_witness :
    resolve (envW cfgFast (fun _ => none)) 5 =
      (Except.ok ⟨"/custom/app.map", "/custom/app.elf", none⟩, ⟨[], [], []⟩) :=
  fast_path_short_circuit (envW cfgFast (fun _ => none)) 5 "/custom/app.map"
    "/custom/app.elf" rfl (by decide) rfl (by decide) (by decide) (by decide)

theorem find?_beq_eq (l : List String) (t : String) :
    l.find? (fun m => m == t) = if t ∈ l then some t else none := by
  induction l with
  | nil => simp
  | cons a l ih =>
    simp only [List.find?]
    cases ha : (a == t) with
    | true =>
      have ha' : a = t := by simpa using ha
      simp [ha']
    | false =>
      have ha' : ¬(t = a) := fun h => (beq_eq_false_iff_ne.mp ha) h.symm
      simp [ih, List.mem_cons, ha']

theorem pairFold_eq (maps : List String) (root folder : String) :
    ∀ (elfs : List String) (acc : List Item),
    (elfs.foldl (fun acc elf =>
      match maps.find? (fun m => m == basenameExt elf ".elf" ++ ".map") with
      | some m =>
        acc ++ [⟨"$(file-binary) " ++ basenameExt elf ".elf", asRelativePath root folder,
                pathJoin folder elf, pathJoin folder m⟩]
      | none => acc) acc) =
    acc ++ elfs.filterMap (fun elf =>
      if basenameExt elf ".elf" ++ ".map" ∈ maps then
        some ⟨"$(file-binary) " ++ basenameExt elf ".elf", asRelativePath root folder,
              pathJoin folder elf, pathJoin folder (basenameExt elf ".elf" ++ ".map")⟩
      else none)
  | [], acc => by simp
  | elf :: elfs, acc => by
    by_cases hmem : basenameExt elf ".elf" ++ ".map" ∈ maps
    · have hf : maps.find? (fun m => m == basenameExt elf ".elf" ++ ".map") =
          some (basenameExt elf ".elf" ++ ".map") := by
        rw [find?_beq_eq, if_pos hmem]
      simp only [List.foldl_cons, List.filterMap_cons, hf, if_pos hmem]
      rw [pairFold_eq maps root folder elfs]
      simp
    · have hf : maps.find? (fun m => m == basenameExt elf ".elf" ++ ".map") = none := by
        rw [find?_beq_eq, if_neg hmem]
      simp only [List.foldl_cons, List.filterMap_cons, hf, if_neg hmem]
      exact pairFold_eq maps root folder elfs acc

theorem pairArtifacts_eq (fs : FS) (root folder : String) :
    pairArtifacts fs root folder =
      ((((fs.readdir folder).getD []).map Dirent.name).filter
        (fun f => strEndsWith f ".elf")).filterMap (fun elf =>
          if basenameExt elf ".elf" ++ ".map" ∈
              (((fs.readdir folder).getD []).map Dirent.name).filter
                (fun f => strEndsWith f ".map") then
            some ⟨"$(file-binary) " ++ basenameExt elf ".elf", asRelativePath root folder,
                  pathJoin folder elf, pathJoin folder (basenameExt elf ".elf" ++ ".map")⟩
          else none) := by
  unfold pairArtifacts
  simp only [pairFold_eq, List.nil_append]

theorem length_filterMap_if {α β : Type _} (p : α → Prop) [DecidablePred p] (g : α → β) :
    ∀ l : List α,
    (l.filterMap fun e => if p e then some (g e) else none).length =
      (l.filter fun e => decide (p e)).length
  | [] => rfl
  | a :: l => by
    by_cases ha : p a <;>
      simp [ha, length_filterMap_if p g l]

theorem mem_filterMap_if {α β : Type _} (p : α → Prop) [DecidablePred p] (g : α → β)
    (l : List α) (b : β) :
    b ∈ (l.filterMap fun e => if p e then some (g e) else none) ↔
      ∃ e ∈ l, p e ∧ b = g e := by
  rw [List.mem_filterMap]
  constructor
  · rintro ⟨e, he, hfe⟩
    by_cases hp : p e
    · rw [if_pos hp] at hfe
      exact ⟨e, he, hp, (Option.some_inj.mp hfe).symm⟩
    · rw [if_neg hp] at hfe
      exact absurd hfe (by simp)
  · rintro ⟨e, he, hp, hb⟩
    exact ⟨e, he, by rw [if_pos hp, hb]⟩

/-- Claim C3: within one qualifying directory, exactly one candidate is
produced per binary file whose stem has an exact, case-sensitive
matching map file in the same directory (stem.elf pairs only with
stem.map); a binary with no matching map contributes no candidate and
raises no error, and a map with no matching binary contributes no
candidate. -/
theorem pair_artifacts_exact (fs : FS) (root folder : String) (files : List Dirent)
    (hr : fs.readdir folder = some files) :
    (pairArtifacts fs root folder).length =
      (((files.map Dirent.name).filter (fun f => strEndsWith f ".elf")).filter
        (fun e => decide ((basenameExt e ".elf" ++ ".map") ∈
          (files.map Dirent.name).filter (fun f => strEndsWith f ".map")))).length ∧
    ∀ it, it ∈ pairArtifacts fs root folder ↔
      ∃ e ∈ (files.map Dirent.name).filter (fun f => strEndsWith f ".elf"),
        (basenameExt e ".elf" ++ ".map") ∈
          (files.map Dirent.name).filter (fun f => strEndsWith f ".map") ∧
        it = ⟨"$(file-binary) " ++ basenameExt e ".elf", asRelativePath root folder,
              pathJoin folder e, pathJoin folder (basenameExt e ".elf" ++ ".map")⟩ := by
  have heq := pairArtifacts_eq fs root folder
  rw [hr] at heq
  simp only [Option.getD_some] at heq
  constructor
  · rw [heq]
    exact length_filterMap_if _ _ _
  · intro it
    rw [heq]
    exact mem_filterMap_if _ _ _ _

theorem pair_artifacts_exact_witness :
    (pairArtifacts fsW "/w" "/w/build").length = 2 := by
  rw [(pair_artifacts_exact fsW "/w" "/w/build"
    [⟨"app.elf", DirentKind.file⟩, ⟨"app.map", DirentKind.file⟩,
     ⟨"b.elf", DirentKind.file⟩, ⟨"b.map", DirentKind.file⟩,
     ⟨"other.map", DirentKind.file⟩] (by decide)).1]
  decide

/-- Claim C7: when the fast path is not taken and a workspace root exists,
resolve fails with the no-build-folder error exactly when the walk
found no qualifying directory, and with the no-matching-artifacts error
exactly when qualifying directories exist but pairing yields no
candidate in any of them. -/
theorem discovery_error_conditions (env : Env) (fuel : Nat) (root : String)
    (rest : List String)
    (hfp : fastPathOk env.cfg env.fs = false)
    (hws : env.workspaceFolders = root :: rest) :
    ((resolve env fuel).1 = Except.error ResolveError.noBuildFolderFound ↔
      (findBuildFolders env.fs env.ci fuel root).found = []) ∧
    ((resolve env fuel).1 = Except.error ResolveError.noMatchingArtifacts ↔
      ((findBuildFolders env.fs env.ci fuel root).found ≠ [] ∧
       collectItems env.fs root (findBuildFolders env.fs env.ci fuel root).found = [])) := by
  unfold resolve
  simp only [hfp, Bool.false_eq_true, if_false, hws]
  cases hfo : (findBuildFolders env.fs env.ci fuel root).found.isEmpty with
  | true =>
    have h1 : (findBuildFolders env.fs env.ci fuel root).found = [] := by
      simpa [List.isEmpty_iff] using hfo
    simp [hfo, h1]
  | false =>
    have h1 : (findBuildFolders env.fs env.ci fuel root).found ≠ [] := by
      simpa [List.isEmpty_iff] using hfo
    simp only [hfo, Bool.false_eq_true, if_false]
    cases hit : (collectItems env.fs root
        (findBuildFolders env.fs env.ci fuel root).found).isEmpty with
    | true =>
      have h2 : collectItems env.fs root
          (findBuildFolders env.fs env.ci fuel root).found = [] := by
        simpa [List.isEmpty_iff] using hit
      simp [hit, h1, h2]
    | false =>
      have h2 : collectItems env.fs root
          (findBuildFolders env.fs env.ci fuel root).found ≠ [] := by
        simpa [List.isEmpty_iff] using hit
      simp only [hit, Bool.false_eq_true, if_false]
      by_cases hlen : (collectItems env.fs root
          (findBuildFolders env.fs env.ci fuel root).found).length > 1
      · simp only [hlen, if_true]
        cases hpick : env.picker (collectItems env.fs root
            (findBuildFolders env.fs env.ci fuel root).found) with
        | none => simp [h1, h2]
        | some pick => simp [h1, h2]
      · simp only [hlen, if_false]
        simp [h1, h2]

theorem discovery_error_conditions_witness :
    ((resolve (envW cfgNone (fun _ => none)) 5).1 =
        Except.error ResolveError.noBuildFolderFound ↔
      (findBuildFolders fsW false 5 "/w").found = []) := by
  have h := (discovery_error_conditions (envW cfgNone (fun _ => none)) 5 "/w" []
    (by decide) rfl).1
  exact h

/-- Claim C6: selection over the collected candidate list: with exactly one
candidate it is returned with no prompt; with more than one candidate
exactly one prompt is shown listing all candidates, the pre-prompt
default being the first candidate in encounter order; cancelling the
prompt fails the whole resolve with the cancellation error, while a
choice returns the chosen candidate. -/
theorem selection_behaviour (env : Env) (fuel : Nat) (root : String) (rest : List String)
    (hfp : fastPathOk env.cfg env.fs = false)
    (hws : env.workspaceFolders = root :: rest) :
    ((collectItems env.fs root (findBuildFolders env.fs env.ci fuel root).found).length = 1 →
      ((resolve env fuel).1 = Except.ok
        ⟨((collectItems env.fs root
            (findBuildFolders env.fs env.ci fuel root).found).headD default).map,
         ((collectItems env.fs root
            (findBuildFolders env.fs env.ci fuel root).found).headD default).elf,
         (getToolchainPath env.cfg env.fs).1⟩ ∧
       (resolve env fuel).2.prompts = [])) ∧
    (1 < (collectItems env.fs root (findBuildFolders env.fs env.ci fuel root).found).length →
      ((resolve env fuel).2.prompts =
         [collectItems env.fs root (findBuildFolders env.fs env.ci fuel root).found] ∧
       (env.picker (collectItems env.fs root
           (findBuildFolders env.fs env.ci fuel root).found) = none →
         (resolve env fuel).1 = Except.error ResolveError.selectionCancelled) ∧
       (∀ pick, env.picker (collectItems env.fs root
           (findBuildFolders env.fs env.ci fuel root).found) = some pick →
         (resolve env fuel).1 =
           Except.ok ⟨pick.map, pick.elf, (getToolchainPath env.cfg env.fs).1⟩))) := by
  unfold resolve
  simp only [hfp, Bool.false_eq_true, if_false, hws]
  constructor
  · intro hone
    have h2 : collectItems env.fs root
        (findBuildFolders env.fs env.ci fuel root).found ≠ [] := by
      intro h
      rw [h] at hone
      simp at hone
    have hfo : (findBuildFolders env.fs env.ci fuel root).found.isEmpty = false := by
      cases hf : (findBuildFolders env.fs env.ci fuel root).found with
      | nil =>
        exfalso
        apply h2
        simp [collectItems, hf]
      | cons a l => simp [hf]
    have hit : (collectItems env.fs root
        (findBuildFolders env.fs env.ci fuel root).found).isEmpty = false := by
      simpa [List.isEmpty_iff] using h2
    have hlen : ¬(collectItems env.fs root
        (findBuildFolders env.fs env.ci fuel root).found).length > 1 := by
      omega
    simp [hfo, hit, hlen]
  · intro hmany
    have h2 : collectItems env.fs root
        (findBuildFolders env.fs env.ci fuel root).found ≠ [] := by
      intro h
      rw [h] at hmany
      simp at hmany
    have hfo : (findBuildFolders env.fs env.ci fuel root).found.isEmpty = false := by
      cases hf : (findBuildFolders env.fs env.ci fuel root).found with
      | nil =>
        exfalso
        apply h2
        simp [collectItems, hf]
      | cons a l => simp [hf]
    have hit : (collectItems env.fs root
        (findBuildFolders env.fs env.ci fuel root).found).isEmpty = false := by
      simpa [List.isEmpty_iff] using h2
    have hlen : (collectItems env.fs root
        (findBuildFolders env.fs env.ci fuel root).found).length > 1 := hmany
    refine ⟨?_, ?_, ?_⟩
    · cases hpick : env.picker (collectItems env.fs root
          (findBuildFolders env.fs env.ci fuel root).found) with
      | none => simp [hfo, hit, hlen, hpick]
      | some pick => simp [hfo, hit, hlen, hpick]
    · intro hpick
      simp [hfo, hit, hlen, hpick]
    · intro pick hpick
      simp [hfo, hit, hlen, hpick]

theorem selection_behaviour_witness :
    (resolve (envW cfgNone (fun _ => none)) 5).2.prompts =
      [collectItems fsW "/w" (findBuildFolders fsW false 5 "/w").found] ∧
    (resolve (envW cfgNone (fun _ => none)) 5).1 =
      Except.error ResolveError.selectionCancelled := by
  have h := (selection_behaviour (envW cfgNone (fun _ => none)) 5 "/w" []
    (by decide) rfl).2 (by decide)
  exact ⟨h.1, h.2.1 rfl⟩

/-- Claim C8: a directory whose listing fails is treated as empty: the walk
marks it visited, records the attempted listing, adds nothing to
found, and returns normally so that traversal continues over the rest
of the tree; concretely, a workspace with an unreadable subdirectory
still resolves to the pair found in its sibling without raising. -/
theorem unreadable_directory_is_skipped (fs : FS) (ci : Bool) (fuel : Nat)
    (dir : String) (st : WalkSt)
    (hv : keyOf ci dir ∉ st.visited) (hr : fs.readdir dir = none) :
    walk fs ci (fuel + 1) dir st =
      ⟨keyOf ci dir :: st.visited, st.found, st.trace ++ [dir]⟩ ∧
    resolve envDenied 5 =
      (Except.ok ⟨"/w/b/app.map", "/w/b/app.elf", none⟩,
       ⟨["/w", "/w/bad", "/w/b", "/w/b"], [], []⟩) := by
  constructor
  · simp only [walk]
    have hc : st.visited.contains (keyOf ci dir) = false := by simpa using hv
    rw [hc]
    simp [hr]
  · rfl

theorem unreadable_directory_is_skipped_witness :
    walk fsDenied false 1 "/w/bad" ⟨[], [], []⟩ = ⟨["/w/bad"], [], ["/w/bad"]⟩ ∧
    resolve envDenied 5 =
      (Except.ok ⟨"/w/b/app.map", "/w/b/app.elf", none⟩,
       ⟨["/w", "/w/bad", "/w/b", "/w/b"], [], []⟩) :=
  unreadable_directory_is_skipped fsDenied false 0 "/w/bad" ⟨[], [], []⟩
    (by decide) (by decide)

theorem envWithToolchain_fs (env : Env) (t : Option String) :
    (envWithToolchain env t).fs = env.fs := rfl

theorem envWithToolchain_ci (env : Env) (t : Option String) :
    (envWithToolchain env t).ci = env.ci := rfl

theorem envWithToolchain_ws (env : Env) (t : Option String) :
    (envWithToolchain env t).workspaceFolders = env.workspaceFolders := rfl

theorem envWithToolchain_picker (env : Env) (t : Option String) :
    (envWithToolchain env t).picker = env.picker := rfl

theorem fastPathOk_toolchain (env : Env) (t : Option String) (fs : FS) :
    fastPathOk (envWithToolchain env t).cfg fs = fastPathOk env.cfg fs := rfl

/-- Whether resolve succeeds is unchanged by the configured toolchain
path: the toolchain only decorates a successful result. -/
theorem resolve_isOk_toolchain_independent (env : Env) (t : Option String) (fuel : Nat) :
    (resolve (envWithToolchain env t) fuel).1.isOk =
      (resolve (envWithToolchain env none) fuel).1.isOk := by
  unfold resolve
  simp only [envWithToolchain_fs, envWithToolchain_ci, envWithToolchain_ws,
    envWithToolchain_picker, fastPathOk_toolchain]
  cases hfp : fastPathOk env.cfg env.fs with
  | true =>
    simp only [hfp, if_true]
    rfl
  | false =>
    simp only [hfp, Bool.false_eq_true, if_false]
    cases hws : env.workspaceFolders with
    | nil => rfl
    | cons root rest =>
      cases hfo : (findBuildFolders env.fs env.ci fuel root).found.isEmpty with
      | true => simp [hfo]
      | false =>
        simp only [hfo, Bool.false_eq_true, if_false]
        cases hit : (collectItems env.fs root
            (findBuildFolders env.fs env.ci fuel root).found).isEmpty with
        | true => simp [hit]
        | false =>
          simp only [hit, Bool.false_eq_true, if_false]
          by_cases hlen : (collectItems env.fs root
              (findBuildFolders env.fs env.ci fuel root).found).length > 1
          · simp only [hlen, if_true]
            cases hpick : env.picker (collectItems env.fs root
                (findBuildFolders env.fs env.ci fuel root).found) with
            | none => simp [hpick]
            | some pick =>
              simp only [hpick]
              rfl
          · simp only [hlen, if_false]
            rfl

/-- Claim C9: toolchain resolution never fails resolve: an absent or empty
configured toolchain path is omitted silently; a configured but
unreadable one produces exactly one warning and is omitted; a readable
one is attached with an informational notice; and whether resolve
succeeds does not depend on the configured toolchain path at all. -/
theorem toolchain_resolution_never_fails (cfg : Config) (fs : FS) (env : Env)
    (t : Option String) (fuel : Nat) :
    (cfg.toolchainPath = none → getToolchainPath cfg fs = (none, [])) ∧
    (cfg.toolchainPath = some "" → getToolchainPath cfg fs = (none, [])) ∧
    (∀ tp, cfg.toolchainPath = some tp → tp ≠ "" → fs.accessOk tp = false →
      getToolchainPath cfg fs =
        (none, [Notif.warning ("STM32 Build Analyzer: toolchainPath not found: " ++ tp)])) ∧
    (∀ tp, cfg.toolchainPath = some tp → tp ≠ "" → fs.accessOk tp = true →
      getToolchainPath cfg fs =
        (some tp, [Notif.info ("STM32 Build Analyzer: Using toolchain from " ++ tp)])) ∧
    (resolve (envWithToolchain env t) fuel).1.isOk =
      (resolve (envWithToolchain env none) fuel).1.isOk := by
  refine ⟨?_, ?_, ?_, ?_, resolve_isOk_toolchain_independent env t fuel⟩
  · intro h
    simp [getToolchainPath, h]
  · intro h
    simp [getToolchainPath, h]
  · intro tp h hne hacc
    simp [getToolchainPath, h, hne, hacc]
  · intro tp h hne hacc
    simp [getToolchainPath, h, hne, hacc]

theorem toolchain_resolution_never_fails_witness :
    getToolchainPath ⟨none, none, some "/tc", false⟩ fsDenied =
      (none, [Notif.warning "STM32 Build Analyzer: toolchainPath not found: /tc"]) ∧
    (resolve (envWithToolchain envDenied (some "/tc")) 5).1.isOk =
      (resolve (envWithToolchain envDenied none) 5).1.isOk := by
  have h := toolchain_resolution_never_fails ⟨none, none, some "/tc", false⟩ fsDenied
    envDenied (some "/tc") 5
  exact ⟨by simpa using h.2.2.1 "/tc" rfl (by decide) rfl, h.2.2.2.2⟩

theorem prioritized_pass_then_fallback_witness :
    "/w" ∈ (findBuildFolders fsDenied false 5 "/w").trace ↔
      (commonPass fsDenied false 5 "/w").found = [] :=
  (prioritized_pass_then_fallback fsDenied false 5 "/w").2 (by omega)

theorem walker_never_follows_symlinks_witness :
    ∃ r ∈ commonNames.map (pathJoin "/w") ++ ["/w"], DirReachable fsDenied r "/w/b" :=
  (walker_never_follows_symlinks fsDenied false 5 "/w").1 "/w/b" (by decide)

end BuildFolderResolver
